import Mathlib

/-!
# Verification of the Sled key extractor

A shallow embedding of `src/rust-key-extractor/src/main.rs`, a tool that
extracts Megolm session keys from a Sled-based crypto store, together with
proofs of the behavioural properties stated in the specification.

External collaborators (the sled storage engine, the matrix-sdk crypto types
and the store cipher) are modelled at their documented interfaces; everything
else is translated directly from the source.
-/

namespace SledExtractor

/-- Model of `matrix_sdk_crypto::olm::ExportedRoomKey` (external value type):
an immutable record of one group session's key material.  The base64/encoded
fields are kept as opaque strings, `sender_claimed_keys` as an association
list and the forwarding chain as an ordered list, matching the shape the
source reads from it in `convert_exported_key` (main.rs lines 105-123). -/
structure ExportedRoomKey where
  room_id : String
  session_id : String
  algorithm : String
  session_key : String
  sender_key : String
  sender_claimed_keys : List (String × String)
  forwarding_curve25519_key_chain : List String
deriving DecidableEq, Repr

/-- `ExportedKeyData` (main.rs lines 22-38): the serializable output form of a
key.  Fields are exactly those of the struct. -/
structure ExportedKeyData where
  room_id : String
  session_id : String
  algorithm : String
  session_key : String
  sender_key : String
  sender_claimed_keys : List (String × String)
  forwarding_curve25519_key_chain : List String
deriving DecidableEq, Repr

/-- `convert_exported_key` (main.rs lines 105-123): field-by-field conversion
from the library type to the output record.  The `to_string`/`to_base64`
calls are identity on our already-string model of the fields. -/
def convert_exported_key (key : ExportedRoomKey) : ExportedKeyData :=
  { room_id := key.room_id
    session_id := key.session_id
    algorithm := key.algorithm
    session_key := key.session_key
    sender_key := key.sender_key
    sender_claimed_keys := key.sender_claimed_keys
    forwarding_curve25519_key_chain := key.forwarding_curve25519_key_chain }

/-- `FailedSession` (main.rs lines 56-64): one record per failed entry. -/
structure FailedSession where
  index : Nat
  key_hex : String
  error : String
deriving DecidableEq, Repr

/-- `FailedSessionsOutput` (main.rs lines 67-73). -/
structure FailedSessionsOutput where
  total_failed : Nat
  sessions : List FailedSession
deriving DecidableEq, Repr

/-- `ExtractionOutput` (main.rs lines 41-53).  The Rust `HashMap` is modelled
as an association list in first-insertion order; the source draws no
conclusion from the map's iteration order. -/
structure ExtractionOutput where
  version : Nat
  total_keys : Nat
  failed_keys : Nat
  keys_by_room : List (String × List ExportedKeyData)
  all_keys : List ExportedKeyData
deriving DecidableEq, Repr

/-- Model of the encrypted store-cipher blob stored under the sentinel key
(external `matrix-sdk-store-encryption` format): it determines which cipher
it contains and under which passphrase it was exported. -/
structure CipherBlob where
  passphrase : String
  cipherId : Nat
deriving DecidableEq, Repr

/-- Model of `matrix_sdk_store_encryption::StoreCipher`: an opaque cipher
context, identified by the id of the cipher it holds. -/
structure StoreCipher where
  cipherId : Nat
deriving DecidableEq, Repr

/-- `StoreCipher::import` (external interface): importing an exported cipher
blob succeeds exactly when the supplied passphrase is the one the blob was
exported under; otherwise it fails with the context message the source
attaches at main.rs line 147. -/
def StoreCipher.import (passphrase : String) (blob : CipherBlob) :
    Except String StoreCipher :=
  if passphrase = blob.passphrase then .ok ⟨blob.cipherId⟩
  else .error "Failed to import store cipher - wrong passphrase?"

/-- Model of `PickledInboundGroupSession` (external type): the decoded
snapshot of one session.  `wellFormed` records whether its cryptographic
state is internally consistent (the property `from_pickle` checks), and
`key` the key material it pickles. -/
structure PickledInboundGroupSession where
  key : ExportedRoomKey
  wellFormed : Bool
deriving DecidableEq, Repr

/-- Model of `InboundGroupSession` (external type): a live session able to
export its key. -/
structure InboundGroupSession where
  key : ExportedRoomKey
deriving DecidableEq, Repr

/-- `InboundGroupSession::from_pickle` (external interface): reconstruction
succeeds exactly when the pickled state is internally consistent. -/
def InboundGroupSession.from_pickle (p : PickledInboundGroupSession) :
    Except String InboundGroupSession :=
  if p.wellFormed then .ok ⟨p.key⟩
  else .error "malformed session state"

/-- `InboundGroupSession::export` (external interface): always succeeds for a
reconstructed session, yielding its key material. -/
def InboundGroupSession.export (s : InboundGroupSession) : ExportedRoomKey :=
  s.key

/-- Model of a raw value byte string stored in the session tree, by what the
decoders can distinguish: well-formed plain JSON of a pickle, an encrypted
envelope under some cipher containing a pickle, or malformed bytes. -/
inductive Blob
  | plainPickle (p : PickledInboundGroupSession)
  | encPickle (cipherId : Nat) (p : PickledInboundGroupSession)
  | malformed (raw : String)
deriving DecidableEq, Repr

/-- `StoreCipher::decrypt_value` (external interface): decryption into the
pickle type succeeds exactly on an authenticated envelope produced under this
cipher; the error carries the context from main.rs line 133. -/
def decrypt_value (cipher : StoreCipher) (data : Blob) :
    Except String PickledInboundGroupSession :=
  match data with
  | .encPickle cid p =>
      if cid = cipher.cipherId then .ok p else .error "Failed to decrypt value"
  | _ => .error "Failed to decrypt value"

/-- `serde_json::from_slice` instantiated at the pickle type (external
interface): plain structured decoding, failing on anything that is not
well-formed plain JSON of a pickle; error context from main.rs line 135. -/
def json_from_slice (data : Blob) : Except String PickledInboundGroupSession :=
  match data with
  | .plainPickle p => .ok p
  | _ => .error "Failed to deserialize JSON"

/-- `deserialize_value` (main.rs lines 126-137): if a cipher is supplied,
decrypt; otherwise parse the bytes directly as JSON. -/
def deserialize_value (data : Blob) (store_cipher : Option StoreCipher) :
    Except String PickledInboundGroupSession :=
  match store_cipher with
  | some cipher => decrypt_value cipher data
  | none => json_from_slice data

/-- What the engine holds at one position of the session tree: either a value
readable as bytes, or a position whose read fails at the engine level
(corruption below the record level), which sled surfaces as an `Err` item
during iteration. -/
inductive EntryVal
  | readFault (msg : String)
  | val (b : Blob)
deriving DecidableEq, Repr

/-- Model of an open `sled::Db`: the value stored under the sentinel
`"store_cipher"` key of the default tree, and the named trees.  Raw keys are
modelled as naturals with their total order standing in for the
lexicographic order on byte strings. -/
structure SledDb where
  store_cipher_blob : Option CipherBlob
  trees : List (String × List (Nat × EntryVal))
deriving DecidableEq, Repr

/-- `INBOUND_GROUP_TABLE_NAME` (main.rs line 19). -/
def INBOUND_GROUP_TABLE_NAME : String := "crypto-store-inbound-group-sessions"

/-- `sled::Db::open_tree` (external interface): per sled's documentation it
opens the tree with the given identifier, or creates a new empty one if no
tree of that name exists; it does not fail on a missing name. -/
def open_tree (db : SledDb) (name : String) : List (Nat × EntryVal) :=
  (db.trees.lookup name).getD []

/-- Key order used by the engine: sled iterates a tree in ascending order of
its (byte-string) keys. -/
def keyLe (a b : Nat × EntryVal) : Prop := a.1 ≤ b.1

instance : DecidableRel keyLe := fun a b => Nat.decLe a.1 b.1

instance : IsTotal (Nat × EntryVal) keyLe := ⟨fun a b => Nat.le_total a.1 b.1⟩

instance : IsTrans (Nat × EntryVal) keyLe := ⟨fun _ _ _ h1 h2 => Nat.le_trans h1 h2⟩

/-- `sled::Tree::iter` (external interface): the iteration sequence of a
tree, in ascending key order — deterministic for a given immutable store. -/
def sledIter (entries : List (Nat × EntryVal)) : List (Nat × EntryVal) :=
  List.insertionSort keyLe entries

/-- `hex::encode` of a raw key (main.rs lines 210, 225), on our natural-number
model of keys: the hexadecimal digit string of the key. -/
def hexEncode (key : Nat) : String :=
  String.mk (Nat.toDigits 16 key)

/-- `load_store_cipher` (main.rs lines 140-153): look up the sentinel key in
the default tree; absent means plaintext mode, present means the blob must be
imported under the passphrase, any failure of that being fatal. -/
def load_store_cipher (db : SledDb) (passphrase : String) :
    Except String (Option StoreCipher) :=
  match db.store_cipher_blob with
  | some encrypted_cipher =>
      (StoreCipher.import passphrase encrypted_cipher).map some
  | none => .ok none

/-- One iteration step of the fault-tolerant loop (main.rs lines 189-246),
without the ordinal: read the item, deserialize the value, reconstruct the
session, export.  On failure it yields the `(key_hex, error)` pair the loop
stores in the `FailedSession` for that position. -/
def decodeEntry (cipher : Option StoreCipher) (item : Nat × EntryVal) :
    Except (String × String) ExportedRoomKey :=
  match item.2 with
  | .readFault e => .error ("<read error>", "Sled read error: " ++ e)
  | .val value =>
      match deserialize_value value cipher with
      | .error e => .error (hexEncode item.1, "Deserialization failed: " ++ e)
      | .ok pickle =>
          match InboundGroupSession.from_pickle pickle with
          | .error e =>
              .error (hexEncode item.1, "Pickle reconstruction failed: " ++ e)
          | .ok session => .ok session.export

/-- The enumerated walk of the fault-tolerant loop (main.rs lines 183-246),
starting from ordinal `i`: each entry contributes either one exported key or
one `FailedSession` carrying its ordinal, both accumulated in encounter
order.  The progress log every 1000 successes (lines 205-207) is
observational only and not modelled. -/
def walkFrom (cipher : Option StoreCipher) (i : Nat) :
    List (Nat × EntryVal) → List ExportedRoomKey × List FailedSession
  | [] => ([], [])
  | item :: rest =>
      let r := walkFrom cipher (i + 1) rest
      match decodeEntry cipher item with
      | .ok key => (key :: r.1, r.2)
      | .error (kh, err) => (r.1, ⟨i, kh, err⟩ :: r.2)

/-- `extract_keys_fault_tolerant` (main.rs lines 156-254): default the
passphrase to the empty string, load the store cipher (fatal on failure),
open the session tree and walk every entry, isolating per-entry failures. -/
def extract_keys_fault_tolerant (db : SledDb) (passphrase : Option String) :
    Except String (List ExportedRoomKey × List FailedSession) :=
  let effective_passphrase := passphrase.getD ""
  match load_store_cipher db effective_passphrase with
  | .error e => .error e
  | .ok store_cipher =>
      let sessions_tree := open_tree db INBOUND_GROUP_TABLE_NAME
      .ok (walkFrom store_cipher 0 (sledIter sessions_tree))

/-- Modelled from the spec: one entry of the validated accessor
`SledCryptoStore::get_inbound_group_sessions` used by strict mode (main.rs
lines 319-322); the library itself is not under src/.  Per spec section 4.5,
the strict path performs the same decode/decrypt/reconstruct pipeline but
"any single failure aborts the entire run with that error". -/
def strictItem (cipher : Option StoreCipher) (item : Nat × EntryVal) :
    Except String InboundGroupSession :=
  match item.2 with
  | .readFault e => .error ("Sled read error: " ++ e)
  | .val value =>
      match deserialize_value value cipher with
      | .error e => .error e
      | .ok pickle => InboundGroupSession.from_pickle pickle

/-- Modelled from the spec: `SledCryptoStore::get_inbound_group_sessions`
over the session tree's iteration sequence — all entries decoded and
reconstructed, the first failure aborting the whole call. -/
def get_inbound_group_sessions (cipher : Option StoreCipher) :
    List (Nat × EntryVal) → Except String (List InboundGroupSession)
  | [] => .ok []
  | item :: rest =>
      match strictItem cipher item with
      | .error e => .error e
      | .ok s =>
          match get_inbound_group_sessions cipher rest with
          | .error e => .error e
          | .ok ss => .ok (s :: ss)

/-- `extract_keys_strict` (main.rs lines 257-340): default the passphrase to
the empty string, open the store through the library (which imports the
store cipher, fatally on a wrong passphrase), retrieve all inbound group
sessions through the validated accessor (fatal on any failure) and export
each.  The diagnostic logging passes (lines 277-315) are observational only
and not modelled. -/
def extract_keys_strict (db : SledDb) (passphrase : Option String) :
    Except String (List ExportedRoomKey) :=
  let effective_passphrase := passphrase.getD ""
  match load_store_cipher db effective_passphrase with
  | .error e => .error e
  | .ok store_cipher =>
      match get_inbound_group_sessions store_cipher
          (sledIter (open_tree db INBOUND_GROUP_TABLE_NAME)) with
      | .error e => .error e
      | .ok sessions => .ok (sessions.map InboundGroupSession.export)

/-- `keys_by_room.entry(room_id).or_insert_with(Vec::new).push(data)`
(main.rs lines 352-355) on the association-list model of the map: push onto
the existing bucket, or create a singleton bucket for a new room. -/
def insertKey (m : List (String × List ExportedKeyData)) (room_id : String)
    (data : ExportedKeyData) : List (String × List ExportedKeyData) :=
  match m with
  | [] => [(room_id, [data])]
  | (r, ks) :: rest =>
      if r = room_id then (r, ks ++ [data]) :: rest
      else (r, ks) :: insertKey rest room_id data

/-- The loop body of `organize_keys` (main.rs lines 348-358): convert the
key, push it into its room's bucket and onto the flat list. -/
def organizeStep (acc : List (String × List ExportedKeyData) × List ExportedKeyData)
    (key : ExportedRoomKey) :
    List (String × List ExportedKeyData) × List ExportedKeyData :=
  let data := convert_exported_key key
  (insertKey acc.1 key.room_id data, acc.2 ++ [data])

/-- `organize_keys` (main.rs lines 343-367): group the keys by room and build
the output document with version 1. -/
def organize_keys (keys : List ExportedRoomKey) (failed_count : Nat) :
    ExtractionOutput :=
  let acc := keys.foldl organizeStep ([], [])
  { version := 1
    total_keys := acc.2.length
    failed_keys := failed_count
    keys_by_room := acc.1
    all_keys := acc.2 }

/-- The two configuration fields of `Args` (main.rs lines 76-102) that the
extraction behaviour depends on. -/
structure RunConfig where
  passphrase : Option String
  skip_errors : Bool
deriving DecidableEq, Repr

/-- A file written by `main`: either the main output document or the
failed-sessions document. -/
inductive WrittenFile
  | mainOutput (out : ExtractionOutput)
  | failedOutput (out : FailedSessionsOutput)
deriving DecidableEq, Repr

/-- `main` (main.rs lines 369-472) after argument parsing and path checks:
run the selected extraction mode; on a fatal error nothing is written and the
process exits non-zero (the `.error` case).  Otherwise in fault-tolerant mode
the failed-sessions file is written first when there are failures, then the
organized output document; in strict mode the failed count is 0 and only the
output document is written. -/
def runMain (db : SledDb) (cfg : RunConfig) : Except String (List WrittenFile) :=
  if cfg.skip_errors then
    match extract_keys_fault_tolerant db cfg.passphrase with
    | .error e => .error e
    | .ok (keys, failed_sessions) =>
        let failed_count := failed_sessions.length
        let failedFiles :=
          if failed_sessions.isEmpty then []
          else [WrittenFile.failedOutput ⟨failed_count, failed_sessions⟩]
        .ok (failedFiles ++ [WrittenFile.mainOutput (organize_keys keys failed_count)])
  else
    match extract_keys_strict db cfg.passphrase with
    | .error e => .error e
    | .ok keys => .ok [WrittenFile.mainOutput (organize_keys keys 0)]

/-! ### Derived notions used to state the invariants -/

/-- Total number of keys held across all buckets of `keys_by_room`. -/
def sumLens (m : List (String × List ExportedKeyData)) : Nat :=
  (m.map (fun b => b.2.length)).sum

/-- The bucket stored for room `r`, if any. -/
def bucketOf (m : List (String × List ExportedKeyData)) (r : String) :
    Option (List ExportedKeyData) :=
  match m with
  | [] => none
  | (a, ks) :: rest => if a = r then some ks else bucketOf rest r

/-- The invariant maintained by the grouping loop of `organize_keys`: bucket
names are distinct, the bucket of every room is exactly the subsequence of
the flat list with that room id, buckets are never empty, and the bucket
sizes sum to the flat list's length. -/
structure OrganizeInv (m : List (String × List ExportedKeyData))
    (all : List ExportedKeyData) : Prop where
  nodup : (m.map Prod.fst).Nodup
  buckets : ∀ r, (bucketOf m r).getD [] = all.filter (fun d => d.room_id = r)
  nonempty : ∀ b ∈ m, b.2 ≠ []
  sums : sumLens m = all.length

/-! ### Concrete sample data -/

/-- A sample exported key for concrete evaluations. -/
def sampleKey (rid sid : String) : ExportedRoomKey :=
  { room_id := rid
    session_id := sid
    algorithm := "m.megolm.v1.aes-sha2"
    session_key := "c2Vzc2lvbg"
    sender_key := "c2VuZGVy"
    sender_claimed_keys := [("ed25519", "ZWQ")]
    forwarding_curve25519_key_chain := ["Zndk"] }

/-- A sample well-formed pickled session. -/
def samplePickle (rid sid : String) : PickledInboundGroupSession :=
  { key := sampleKey rid sid, wellFormed := true }

/-- A sample store with three plaintext entries of which the middle one is
malformed. -/
def dbOneBad : SledDb :=
  { store_cipher_blob := none
    trees := [(INBOUND_GROUP_TABLE_NAME,
      [(1, EntryVal.val (Blob.plainPickle (samplePickle "!roomA" "sessA"))),
       (2, EntryVal.val (Blob.malformed "garbage")),
       (3, EntryVal.val (Blob.plainPickle (samplePickle "!roomB" "sessB")))])] }

/-- A sample store with one healthy plaintext entry. -/
def dbOneGood : SledDb :=
  { store_cipher_blob := none
    trees := [(INBOUND_GROUP_TABLE_NAME,
      [(5, EntryVal.val (Blob.plainPickle (samplePickle "!roomA" "sessA")))])] }

/-- A sample encrypted store: the cipher blob was exported under the
passphrase `"secret"`. -/
def dbEncrypted : SledDb :=
  { store_cipher_blob := some { passphrase := "secret", cipherId := 7 }
    trees := [(INBOUND_GROUP_TABLE_NAME,
      [(1, EntryVal.val (Blob.encPickle 7 (samplePickle "!roomA" "sessA")))])] }

/-- A sample store without the inbound-group-sessions tree. -/
def dbNoTree : SledDb :=
  { store_cipher_blob := none
    trees := [("some-other-tree", [(1, EntryVal.val (Blob.malformed "x"))])] }

/-- Two-entry tree contents, in two different insertion orders. -/
def twoEntriesA : List (Nat × EntryVal) :=
  [(1, EntryVal.val (Blob.plainPickle (samplePickle "!roomA" "sessA"))),
   (2, EntryVal.val (Blob.plainPickle (samplePickle "!roomB" "sessB")))]

/-- The same two entries as `twoEntriesA`, inserted in the other order. -/
def twoEntriesB : List (Nat × EntryVal) :=
  [(2, EntryVal.val (Blob.plainPickle (samplePickle "!roomB" "sessB"))),
   (1, EntryVal.val (Blob.plainPickle (samplePickle "!roomA" "sessA")))]

/-- Sample store holding `twoEntriesA`. -/
def dbTwoA : SledDb :=
  { store_cipher_blob := none, trees := [(INBOUND_GROUP_TABLE_NAME, twoEntriesA)] }

/-- Sample store holding `twoEntriesB`. -/
def dbTwoB : SledDb :=
  { store_cipher_blob := none, trees := [(INBOUND_GROUP_TABLE_NAME, twoEntriesB)] }

/-! ### Lemmas about the grouping map -/

theorem insertKey_cons_same (a : String) (ks : List ExportedKeyData)
    (rest : List (String × List ExportedKeyData)) (r : String) (d : ExportedKeyData)
    (h : a = r) : insertKey ((a, ks) :: rest) r d = (a, ks ++ [d]) :: rest := by
  simp [insertKey, h]

theorem insertKey_cons_diff (a : String) (ks : List ExportedKeyData)
    (rest : List (String × List ExportedKeyData)) (r : String) (d : ExportedKeyData)
    (h : ¬a = r) : insertKey ((a, ks) :: rest) r d = (a, ks) :: insertKey rest r d := by
  simp [insertKey, h]

theorem bucketOf_eq_none_iff (m : List (String × List ExportedKeyData)) (r : String) :
    bucketOf m r = none ↔ r ∉ m.map Prod.fst := by
  induction m with
  | nil => simp [bucketOf]
  | cons b rest ih =>
    obtain ⟨a, ks⟩ := b
    by_cases h : a = r
    · subst h
      simp [bucketOf]
    · simp only [bucketOf, if_neg h, List.map_cons, List.mem_cons, ih]
      constructor
      · rintro hr (hra | hmem)
        · exact h hra.symm
        · exact hr hmem
      · intro hr hmem
        exact hr (Or.inr hmem)

theorem mem_of_bucketOf (m : List (String × List ExportedKeyData)) (r : String)
    (ks : List ExportedKeyData) (h : bucketOf m r = some ks) : (r, ks) ∈ m := by
  induction m with
  | nil => simp [bucketOf] at h
  | cons b rest ih =>
    obtain ⟨a, ks'⟩ := b
    by_cases ha : a = r
    · subst ha
      simp only [bucketOf, if_true, eq_self_iff_true, Option.some.injEq] at h
      subst h
      exact List.mem_cons_self _ _
    · simp only [bucketOf, if_neg ha] at h
      exact List.mem_cons_of_mem _ (ih h)

theorem bucketOf_of_mem (m : List (String × List ExportedKeyData))
    (b : String × List ExportedKeyData) (hnd : (m.map Prod.fst).Nodup) (hb : b ∈ m) :
    bucketOf m b.1 = some b.2 := by
  induction m with
  | nil => cases hb
  | cons hd rest ih =>
    obtain ⟨a, ks⟩ := hd
    rw [List.map_cons, List.nodup_cons] at hnd
    rcases List.mem_cons.mp hb with h | h
    · subst h
      simp [bucketOf]
    · have hb1 : b.1 ∈ rest.map Prod.fst := List.mem_map_of_mem Prod.fst h
      have ha : a ≠ b.1 := fun hh => hnd.1 (by rw [hh]; exact hb1)
      simp only [bucketOf, if_neg ha]
      exact ih hnd.2 h

theorem bucketOf_insertKey_self (m : List (String × List ExportedKeyData))
    (r : String) (d : ExportedKeyData) :
    bucketOf (insertKey m r d) r = some ((bucketOf m r).getD [] ++ [d]) := by
  induction m with
  | nil => simp [insertKey, bucketOf]
  | cons b rest ih =>
    obtain ⟨a, ks⟩ := b
    by_cases h : a = r
    · subst h
      simp [insertKey, bucketOf]
    · simp [insertKey, bucketOf, h, ih]

theorem bucketOf_insertKey_other (m : List (String × List ExportedKeyData))
    (r r' : String) (d : ExportedKeyData) (h : r' ≠ r) :
    bucketOf (insertKey m r d) r' = bucketOf m r' := by
  induction m with
  | nil =>
    have hrr : r ≠ r' := fun hh => h hh.symm
    simp [insertKey, bucketOf, hrr]
  | cons b rest ih =>
    obtain ⟨a, ks⟩ := b
    by_cases ha : a = r
    · subst ha
      have hne : a ≠ r' := fun hh => h hh.symm
      simp [insertKey, bucketOf, hne]
    · by_cases ha' : a = r'
      · subst ha'
        simp [insertKey, bucketOf, ha]
      · simp [insertKey, bucketOf, ha, ha', ih]

theorem insertKey_map_fst_absent (m : List (String × List ExportedKeyData))
    (r : String) (d : ExportedKeyData) (h : bucketOf m r = none) :
    (insertKey m r d).map Prod.fst = m.map Prod.fst ++ [r] := by
  induction m with
  | nil => simp [insertKey]
  | cons b rest ih =>
    obtain ⟨a, ks⟩ := b
    by_cases ha : a = r
    · subst ha
      simp [bucketOf] at h
    · simp only [bucketOf, if_neg ha] at h
      simp [insertKey, ha, ih h]

theorem insertKey_map_fst_present (m : List (String × List ExportedKeyData))
    (r : String) (d : ExportedKeyData) (ks : List ExportedKeyData)
    (h : bucketOf m r = some ks) :
    (insertKey m r d).map Prod.fst = m.map Prod.fst := by
  induction m with
  | nil => simp [bucketOf] at h
  | cons b rest ih =>
    obtain ⟨a, ks'⟩ := b
    by_cases ha : a = r
    · subst ha
      simp [insertKey]
    · simp only [bucketOf, if_neg ha] at h
      simp [insertKey, ha, ih h]

theorem insertKey_nodup (m : List (String × List ExportedKeyData))
    (r : String) (d : ExportedKeyData) (h : (m.map Prod.fst).Nodup) :
    ((insertKey m r d).map Prod.fst).Nodup := by
  cases hb : bucketOf m r with
  | none =>
    rw [insertKey_map_fst_absent m r d hb]
    have hr : r ∉ m.map Prod.fst := (bucketOf_eq_none_iff m r).mp hb
    simp [List.nodup_append, h, hr]
  | some ks =>
    rw [insertKey_map_fst_present m r d ks hb]
    exact h

theorem insertKey_sumLens (m : List (String × List ExportedKeyData))
    (r : String) (d : ExportedKeyData) :
    sumLens (insertKey m r d) = sumLens m + 1 := by
  induction m with
  | nil => simp [insertKey, sumLens]
  | cons b rest ih =>
    obtain ⟨a, ks⟩ := b
    by_cases h : a = r
    · subst h
      simp [insertKey, sumLens]
      omega
    · simp only [insertKey, if_neg h]
      simp only [sumLens, List.map_cons, List.sum_cons] at ih ⊢
      omega

theorem insertKey_nonempty (m : List (String × List ExportedKeyData))
    (r : String) (d : ExportedKeyData) (h : ∀ b ∈ m, b.2 ≠ []) :
    ∀ b ∈ insertKey m r d, b.2 ≠ [] := by
  induction m with
  | nil =>
    intro b hb
    simp [insertKey] at hb
    subst hb
    simp
  | cons hd rest ih =>
    obtain ⟨a, ks⟩ := hd
    intro b hb
    by_cases ha : a = r
    · rw [insertKey_cons_same a ks rest r d ha, List.mem_cons] at hb
      rcases hb with hb | hb
      · subst hb
        simp
      · exact h b (List.mem_cons_of_mem _ hb)
    · rw [insertKey_cons_diff a ks rest r d ha, List.mem_cons] at hb
      rcases hb with hb | hb
      · subst hb
        exact h _ (List.mem_cons_self _ _)
      · exact ih (fun b' hb' => h b' (List.mem_cons_of_mem _ hb')) b hb

/-! ### Lemmas about `organize_keys` -/

theorem convert_room_id (key : ExportedRoomKey) :
    (convert_exported_key key).room_id = key.room_id := rfl

theorem organizeStep_eq (m : List (String × List ExportedKeyData))
    (all : List ExportedKeyData) (key : ExportedRoomKey) :
    organizeStep (m, all) key =
      (insertKey m key.room_id (convert_exported_key key),
       all ++ [convert_exported_key key]) := rfl

theorem organizeStep_inv {m : List (String × List ExportedKeyData)}
    {all : List ExportedKeyData} (key : ExportedRoomKey) (h : OrganizeInv m all) :
    OrganizeInv (insertKey m key.room_id (convert_exported_key key))
      (all ++ [convert_exported_key key]) := by
  set d := convert_exported_key key with hd
  have hdr : d.room_id = key.room_id := rfl
  constructor
  · exact insertKey_nodup m key.room_id d h.nodup
  · intro r
    by_cases hr : key.room_id = r
    · subst hr
      rw [bucketOf_insertKey_self m key.room_id d]
      rw [List.filter_append]
      have : List.filter (fun x => decide (x.room_id = key.room_id)) [d] = [d] := by
        simp [hdr]
      rw [this, Option.getD_some, h.buckets key.room_id]
    · rw [bucketOf_insertKey_other m key.room_id r d (fun hh => hr hh.symm)]
      rw [List.filter_append]
      have : List.filter (fun x => decide (x.room_id = r)) [d] = [] := by
        simp [hdr, hr]
      rw [this, List.append_nil, h.buckets r]
  · exact insertKey_nonempty m key.room_id d h.nonempty
  · rw [insertKey_sumLens m key.room_id d, h.sums]
    simp

theorem foldl_organizeStep_inv (keys : List ExportedRoomKey) :
    ∀ (m : List (String × List ExportedKeyData)) (all : List ExportedKeyData),
      OrganizeInv m all →
      OrganizeInv (keys.foldl organizeStep (m, all)).1
        (keys.foldl organizeStep (m, all)).2 := by
  induction keys with
  | nil =>
    intro m all h
    simpa using h
  | cons k ks ih =>
    intro m all h
    have h2 := organizeStep_inv k h
    simpa [List.foldl_cons, organizeStep_eq] using ih _ _ h2

theorem foldl_organizeStep_all (keys : List ExportedRoomKey) :
    ∀ (m : List (String × List ExportedKeyData)) (all : List ExportedKeyData),
      (keys.foldl organizeStep (m, all)).2 = all ++ keys.map convert_exported_key := by
  induction keys with
  | nil =>
    intro m all
    simp
  | cons k ks ih =>
    intro m all
    simp only [List.foldl_cons, List.map_cons, organizeStep_eq, ih]
    simp

theorem organizeInv_nil : OrganizeInv [] [] := by
  refine ⟨by simp, ?_, by simp, rfl⟩
  intro r
  simp [bucketOf]

theorem organize_keys_all_keys (keys : List ExportedRoomKey) (fc : Nat) :
    (organize_keys keys fc).all_keys = keys.map convert_exported_key := by
  simp [organize_keys, foldl_organizeStep_all]

theorem organize_keys_total (keys : List ExportedRoomKey) (fc : Nat) :
    (organize_keys keys fc).total_keys = keys.length := by
  simp [organize_keys, foldl_organizeStep_all]

theorem organize_keys_failed (keys : List ExportedRoomKey) (fc : Nat) :
    (organize_keys keys fc).failed_keys = fc := rfl

theorem organize_keys_inv (keys : List ExportedRoomKey) (fc : Nat) :
    OrganizeInv (organize_keys keys fc).keys_by_room (organize_keys keys fc).all_keys :=
  foldl_organizeStep_inv keys [] [] organizeInv_nil

/-! ### Lemmas about the fault-tolerant walk -/

theorem walkFrom_count (cipher : Option StoreCipher) (i : Nat)
    (l : List (Nat × EntryVal)) :
    (walkFrom cipher i l).1.length + (walkFrom cipher i l).2.length = l.length := by
  induction l generalizing i with
  | nil => simp [walkFrom]
  | cons item rest ih =>
    cases hd : decodeEntry cipher item with
    | ok k =>
      simp only [walkFrom, hd, List.length_cons]
      have := ih (i + 1)
      omega
    | error p =>
      obtain ⟨kh, err⟩ := p
      simp only [walkFrom, hd, List.length_cons]
      have := ih (i + 1)
      omega

theorem walkFrom_append (cipher : Option StoreCipher) (i : Nat)
    (xs ys : List (Nat × EntryVal)) :
    walkFrom cipher i (xs ++ ys) =
      ((walkFrom cipher i xs).1 ++ (walkFrom cipher (i + xs.length) ys).1,
       (walkFrom cipher i xs).2 ++ (walkFrom cipher (i + xs.length) ys).2) := by
  induction xs generalizing i with
  | nil => simp [walkFrom]
  | cons item rest ih =>
    have harith : i + 1 + rest.length = i + (rest.length + 1) := by omega
    cases hd : decodeEntry cipher item with
    | ok k =>
      simp only [List.cons_append, walkFrom, hd, List.length_cons]
      rw [show rest.append ys = rest ++ ys from rfl, ih (i + 1), harith]
    | error p =>
      obtain ⟨kh, err⟩ := p
      simp only [List.cons_append, walkFrom, hd, List.length_cons]
      rw [show rest.append ys = rest ++ ys from rfl, ih (i + 1), harith]

theorem walkFrom_all_ok (cipher : Option StoreCipher) (i : Nat)
    (l : List (Nat × EntryVal)) (h : ∀ x ∈ l, ∃ k, decodeEntry cipher x = .ok k) :
    (walkFrom cipher i l).2 = [] ∧ (walkFrom cipher i l).1.length = l.length := by
  induction l generalizing i with
  | nil => simp [walkFrom]
  | cons item rest ih =>
    obtain ⟨k, hk⟩ := h item (List.mem_cons_self _ _)
    have ih2 := ih (i + 1) (fun x hx => h x (List.mem_cons_of_mem _ hx))
    simp only [walkFrom, hk, List.length_cons]
    exact ⟨ih2.1, by rw [ih2.2]⟩

/-! ### Lemmas about the engine's iteration order -/

theorem sledIter_length (t : List (Nat × EntryVal)) :
    (sledIter t).length = t.length :=
  (List.perm_insertionSort keyLe t).length_eq

/-- The key-strict order used to show sorted iteration sequences agree. -/
def keyLt (a b : Nat × EntryVal) : Prop := a.1 < b.1

instance : IsAntisymm (Nat × EntryVal) keyLt :=
  ⟨fun _ _ h1 h2 => absurd (Nat.lt_trans h1 h2) (Nat.lt_irrefl _)⟩

theorem sorted_keyLt_of_sorted_keyLe (l : List (Nat × EntryVal))
    (hs : l.Sorted keyLe) (hnd : (l.map Prod.fst).Nodup) : l.Sorted keyLt := by
  have hne : l.Pairwise (fun a b => a.1 ≠ b.1) := (List.pairwise_map).mp hnd
  have := List.Pairwise.and hs hne
  exact this.imp (fun h => Nat.lt_of_le_of_ne h.1 h.2)

theorem sledIter_eq_of_perm (t1 t2 : List (Nat × EntryVal))
    (hp : t1.Perm t2) (hnd : (t1.map Prod.fst).Nodup) :
    sledIter t1 = sledIter t2 := by
  have hp1 : (sledIter t1).Perm t1 := List.perm_insertionSort keyLe t1
  have hp2 : (sledIter t2).Perm t2 := List.perm_insertionSort keyLe t2
  have hp12 : (sledIter t1).Perm (sledIter t2) :=
    (hp1.trans hp).trans hp2.symm
  have hnd1 : ((sledIter t1).map Prod.fst).Nodup :=
    ((hp1.map Prod.fst).nodup_iff).mpr hnd
  have hnd2 : ((sledIter t2).map Prod.fst).Nodup :=
    ((hp12.map Prod.fst).nodup_iff).mp hnd1
  have hs1 : (sledIter t1).Sorted keyLt :=
    sorted_keyLt_of_sorted_keyLe _ (List.sorted_insertionSort keyLe t1) hnd1
  have hs2 : (sledIter t2).Sorted keyLt :=
    sorted_keyLt_of_sorted_keyLe _ (List.sorted_insertionSort keyLe t2) hnd2
  exact List.eq_of_perm_of_sorted hp12 hs1 hs2

/-! ### Lemmas about the strict accessor -/

theorem strictItem_bad (cipher : Option StoreCipher) (item : Nat × EntryVal)
    (h : ∀ k, decodeEntry cipher item ≠ .ok k) :
    ∀ s, strictItem cipher item ≠ .ok s := by
  obtain ⟨key, v⟩ := item
  intro s hs
  cases v with
  | readFault e => simp [strictItem] at hs
  | val value =>
    cases hv : deserialize_value value cipher with
    | error e => simp [strictItem, hv] at hs
    | ok pickle =>
      cases hpk : InboundGroupSession.from_pickle pickle with
      | error e => simp [strictItem, hv, hpk] at hs
      | ok session =>
        simp only [decodeEntry, hv, hpk] at h
        exact h session.export rfl

theorem get_sessions_error_of_bad (cipher : Option StoreCipher)
    (l : List (Nat × EntryVal)) (x : Nat × EntryVal) (hx : x ∈ l)
    (hbad : ∀ s, strictItem cipher x ≠ .ok s) :
    ∃ e, get_inbound_group_sessions cipher l = .error e := by
  induction l with
  | nil => cases hx
  | cons item rest ih =>
    rcases List.mem_cons.mp hx with h | h
    · subst h
      cases hi : strictItem cipher x with
      | error e => exact ⟨e, by simp [get_inbound_group_sessions, hi]⟩
      | ok s => exact absurd hi (hbad s)
    · cases hi : strictItem cipher item with
      | error e => exact ⟨e, by simp [get_inbound_group_sessions, hi]⟩
      | ok s =>
        obtain ⟨e, he⟩ := ih h
        exact ⟨e, by simp [get_inbound_group_sessions, hi, he]⟩

/-! ### Unfolding lemmas for the two run modes -/

theorem runMain_skip (db : SledDb) (passphrase : Option String) :
    runMain db ⟨passphrase, true⟩ =
      match extract_keys_fault_tolerant db passphrase with
      | .error e => .error e
      | .ok (keys, failed_sessions) =>
          .ok ((if failed_sessions.isEmpty then []
              else [WrittenFile.failedOutput ⟨failed_sessions.length, failed_sessions⟩]) ++
            [WrittenFile.mainOutput (organize_keys keys failed_sessions.length)]) := rfl

theorem runMain_strict (db : SledDb) (passphrase : Option String) :
    runMain db ⟨passphrase, false⟩ =
      match extract_keys_strict db passphrase with
      | .error e => .error e
      | .ok keys => .ok [WrittenFile.mainOutput (organize_keys keys 0)] := rfl

theorem runMain_skip_ok (db : SledDb) (passphrase : Option String)
    (p : List ExportedRoomKey × List FailedSession)
    (hex : extract_keys_fault_tolerant db passphrase = .ok p) :
    runMain db ⟨passphrase, true⟩ =
      .ok ((if p.2.isEmpty then []
          else [WrittenFile.failedOutput ⟨p.2.length, p.2⟩]) ++
        [WrittenFile.mainOutput (organize_keys p.1 p.2.length)]) := by
  obtain ⟨keys, fs⟩ := p
  rw [runMain_skip, hex]

theorem runMain_skip_error (db : SledDb) (passphrase : Option String) (e : String)
    (hex : extract_keys_fault_tolerant db passphrase = .error e) :
    runMain db ⟨passphrase, true⟩ = .error e := by
  rw [runMain_skip, hex]

theorem runMain_strict_ok (db : SledDb) (passphrase : Option String)
    (keys : List ExportedRoomKey)
    (hex : extract_keys_strict db passphrase = .ok keys) :
    runMain db ⟨passphrase, false⟩ =
      .ok [WrittenFile.mainOutput (organize_keys keys 0)] := by
  rw [runMain_strict, hex]

theorem runMain_strict_error (db : SledDb) (passphrase : Option String) (e : String)
    (hex : extract_keys_strict db passphrase = .error e) :
    runMain db ⟨passphrase, false⟩ = .error e := by
  rw [runMain_strict, hex]

theorem extract_ft_ok (db : SledDb) (passphrase : Option String)
    (cipher : Option StoreCipher)
    (hload : load_store_cipher db (passphrase.getD "") = .ok cipher) :
    extract_keys_fault_tolerant db passphrase =
      .ok (walkFrom cipher 0 (sledIter (open_tree db INBOUND_GROUP_TABLE_NAME))) := by
  simp only [extract_keys_fault_tolerant, hload]

theorem extract_ft_error (db : SledDb) (passphrase : Option String) (e : String)
    (hload : load_store_cipher db (passphrase.getD "") = .error e) :
    extract_keys_fault_tolerant db passphrase = .error e := by
  simp only [extract_keys_fault_tolerant, hload]

theorem extract_strict_error_load (db : SledDb) (passphrase : Option String)
    (e : String)
    (hload : load_store_cipher db (passphrase.getD "") = .error e) :
    extract_keys_strict db passphrase = .error e := by
  simp only [extract_keys_strict, hload]

/-! ### The claims -/

/-- C1: Fault isolation — on a session collection whose iteration sequence
has exactly one entry (at position `pre.length`) that fails to decode, the
fault-tolerant run completes, writing the failure document with that single
record (whose `index` is the failing position) and the output document with
`total_keys = N - 1` (the count of the remaining entries) and
`failed_keys = 1`; the strict run over the same store aborts with an error
and writes no file. -/
theorem fault_isolation_runs (db : SledDb) (passphrase : Option String)
    (cipher : Option StoreCipher) (pre post : List (Nat × EntryVal))
    (bad : Nat × EntryVal)
    (hcipher : load_store_cipher db (passphrase.getD "") = .ok cipher)
    (hitems : sledIter (open_tree db INBOUND_GROUP_TABLE_NAME) = pre ++ bad :: post)
    (hpre : ∀ x ∈ pre, ∃ k, decodeEntry cipher x = Except.ok k)
    (hpost : ∀ x ∈ post, ∃ k, decodeEntry cipher x = Except.ok k)
    (hbad : ∀ k, decodeEntry cipher bad ≠ Except.ok k) :
    (∃ out fail,
        runMain db ⟨passphrase, true⟩ =
          .ok [WrittenFile.failedOutput ⟨1, [fail]⟩, WrittenFile.mainOutput out]
        ∧ out.total_keys = pre.length + post.length
        ∧ out.failed_keys = 1
        ∧ fail.index = pre.length)
    ∧ (∃ e, runMain db ⟨passphrase, false⟩ = .error e) := by
  cases hbadeq : decodeEntry cipher bad with
  | ok k => exact absurd hbadeq (hbad k)
  | error p =>
    obtain ⟨kh, err⟩ := p
    obtain ⟨hpre2, hpre1⟩ := walkFrom_all_ok cipher 0 pre hpre
    obtain ⟨hpost2, hpost1⟩ := walkFrom_all_ok cipher (pre.length + 1) post hpost
    have hwalk : walkFrom cipher 0 (pre ++ bad :: post) =
        ((walkFrom cipher 0 pre).1 ++ (walkFrom cipher (pre.length + 1) post).1,
         [⟨pre.length, kh, err⟩]) := by
      rw [walkFrom_append cipher 0 pre (bad :: post), Nat.zero_add]
      simp only [walkFrom, hbadeq, hpre2, hpost2]
      simp
    have hex : extract_keys_fault_tolerant db passphrase =
        .ok ((walkFrom cipher 0 pre).1 ++ (walkFrom cipher (pre.length + 1) post).1,
             [⟨pre.length, kh, err⟩]) := by
      simp only [extract_keys_fault_tolerant, hcipher, hitems, hwalk]
    constructor
    · refine ⟨organize_keys
          ((walkFrom cipher 0 pre).1 ++ (walkFrom cipher (pre.length + 1) post).1) 1,
        ⟨pre.length, kh, err⟩, ?_, ?_, rfl, rfl⟩
      · simp only [runMain, hex]
        simp
      · rw [organize_keys_total, List.length_append, hpre1, hpost1]
    · have hstrictbad := strictItem_bad cipher bad hbad
      have hmem : bad ∈ sledIter (open_tree db INBOUND_GROUP_TABLE_NAME) := by
        rw [hitems]
        exact List.mem_append_right _ (List.mem_cons_self _ _)
      obtain ⟨e, he⟩ := get_sessions_error_of_bad cipher _ bad hmem hstrictbad
      refine ⟨e, ?_⟩
      simp only [runMain, extract_keys_strict, hcipher, he]
      simp

/-- C1 witness: on the concrete store `dbOneBad` (three entries, the one at
iteration position 1 malformed) the fault-tolerant run reports 2 keys and 1
failure at index 1, and the strict run aborts. -/
theorem fault_isolation_runs_witness :
    (∃ out fail,
        runMain dbOneBad ⟨none, true⟩ =
          .ok [WrittenFile.failedOutput ⟨1, [fail]⟩, WrittenFile.mainOutput out]
        ∧ out.total_keys = 2
        ∧ out.failed_keys = 1
        ∧ fail.index = 1)
    ∧ (∃ e, runMain dbOneBad ⟨none, false⟩ = .error e) :=
  fault_isolation_runs dbOneBad none none
    [(1, EntryVal.val (Blob.plainPickle (samplePickle "!roomA" "sessA")))]
    [(3, EntryVal.val (Blob.plainPickle (samplePickle "!roomB" "sessB")))]
    (2, EntryVal.val (Blob.malformed "garbage"))
    rfl
    rfl
    (by
      intro x hx
      rw [List.mem_singleton] at hx
      subst hx
      exact ⟨_, rfl⟩)
    (by
      intro x hx
      rw [List.mem_singleton] at hx
      subst hx
      exact ⟨_, rfl⟩)
    (by intro k h; exact nomatch h)

/-- C2: Counting invariant — whenever a fault-tolerant run completes and
writes its output document, `total_keys + failed_keys` equals the number of
entries present in the session collection at walk start. -/
theorem counting_invariant (db : SledDb) (passphrase : Option String)
    (files : List WrittenFile) (out : ExtractionOutput)
    (hrun : runMain db ⟨passphrase, true⟩ = .ok files)
    (hout : WrittenFile.mainOutput out ∈ files) :
    out.total_keys + out.failed_keys =
      (open_tree db INBOUND_GROUP_TABLE_NAME).length := by
  cases hload : load_store_cipher db (passphrase.getD "") with
  | error e =>
    rw [runMain_skip_error db passphrase e (extract_ft_error db passphrase e hload)]
      at hrun
    cases hrun
  | ok cipher =>
    rw [runMain_skip_ok db passphrase _ (extract_ft_ok db passphrase cipher hload)]
      at hrun
    rw [Except.ok.injEq] at hrun
    subst hrun
    rcases List.mem_append.mp hout with hmem | hmem
    · by_cases hfe :
        (walkFrom cipher 0 (sledIter (open_tree db INBOUND_GROUP_TABLE_NAME))).2.isEmpty
      · simp [hfe] at hmem
      · simp [hfe] at hmem
    · rw [List.mem_singleton] at hmem
      rw [WrittenFile.mainOutput.injEq] at hmem
      subst hmem
      rw [organize_keys_total, organize_keys_failed, ← sledIter_length,
        ← walkFrom_count cipher 0]

/-- C2 witness: on the concrete one-entry store `dbOneGood`, the output
document's counts sum to the collection's entry count (1). -/
theorem counting_invariant_witness :
    (organize_keys [sampleKey "!roomA" "sessA"] 0).total_keys +
        (organize_keys [sampleKey "!roomA" "sessA"] 0).failed_keys =
      (open_tree dbOneGood INBOUND_GROUP_TABLE_NAME).length :=
  counting_invariant dbOneGood none
    [WrittenFile.mainOutput (organize_keys [sampleKey "!roomA" "sessA"] 0)]
    (organize_keys [sampleKey "!roomA" "sessA"] 0) rfl (List.mem_singleton.mpr rfl)

/-- C3 counterexample: on the concrete encrypted store `dbEncrypted`, a run
with no passphrase is indistinguishable from a run with the empty-string
passphrase — both are mapped to the passphrase `""` and fail identically —
so the extraction does treat the absent passphrase as the empty string,
contrary to the claim. -/
theorem passphrase_distinct_counterexample :
    runMain dbEncrypted ⟨none, true⟩ = runMain dbEncrypted ⟨some "", true⟩
    ∧ runMain dbEncrypted ⟨none, true⟩ =
        .error "Failed to import store cipher - wrong passphrase?" := by
  exact ⟨rfl, rfl⟩

/-- C3 (amended): both configurations are accepted, but the extraction maps
an absent passphrase to the empty string (`passphrase.unwrap_or("")`), so for
every store and mode a run with no passphrase behaves identically to a run
with the empty-string passphrase. -/
theorem passphrase_absent_behaves_as_empty (db : SledDb) (skip : Bool) :
    runMain db ⟨none, skip⟩ = runMain db ⟨some "", skip⟩ := by
  cases skip <;> rfl

/-- C3 witness: the amended statement evaluated on the concrete store
`dbEncrypted` in strict mode. -/
theorem passphrase_absent_behaves_as_empty_witness :
    runMain dbEncrypted ⟨none, false⟩ = runMain dbEncrypted ⟨some "", false⟩ :=
  passphrase_absent_behaves_as_empty dbEncrypted false

/-- C4 counterexample: on the concrete store `dbNoTree`, which has no
collection named `INBOUND_GROUP_TABLE_NAME`, the fault-tolerant run does not
abort: the engine's open-or-create `open_tree` yields an empty collection and
the run completes with an output document of zero keys. -/
theorem collection_absent_counterexample :
    runMain dbNoTree ⟨none, true⟩ =
      .ok [WrittenFile.mainOutput (organize_keys [] 0)]
    ∧ (organize_keys [] 0).total_keys = 0 := by
  exact ⟨rfl, rfl⟩

/-- C4 (amended): when the fixed collection name does not exist in the
store, `sled::Db::open_tree` creates an empty collection instead of failing,
so (provided the cipher loads) the run completes successfully with
`total_keys = 0` and `failed_keys = 0`; a missing collection is not a fatal
setup error. -/
theorem collection_absent_amended (db : SledDb) (passphrase : Option String)
    (cipher : Option StoreCipher)
    (habsent : db.trees.lookup INBOUND_GROUP_TABLE_NAME = none)
    (hcipher : load_store_cipher db (passphrase.getD "") = .ok cipher) :
    runMain db ⟨passphrase, true⟩ = .ok [WrittenFile.mainOutput (organize_keys [] 0)]
    ∧ (organize_keys [] 0).total_keys = 0
    ∧ (organize_keys [] 0).failed_keys = 0 := by
  have htree : open_tree db INBOUND_GROUP_TABLE_NAME = [] := by
    simp [open_tree, habsent]
  refine ⟨?_, rfl, rfl⟩
  simp only [runMain, extract_keys_fault_tolerant, hcipher, htree]
  simp [sledIter, walkFrom]

/-- C4 witness: the amended statement evaluated on the concrete store
`dbNoTree` with no passphrase. -/
theorem collection_absent_amended_witness :
    runMain dbNoTree ⟨none, true⟩ = .ok [WrittenFile.mainOutput (organize_keys [] 0)]
    ∧ (organize_keys [] 0).total_keys = 0
    ∧ (organize_keys [] 0).failed_keys = 0 :=
  collection_absent_amended dbNoTree none none rfl rfl

/-- C5: Grouping invariant — in every output document built by
`organize_keys`, `total_keys` equals the length of `all_keys` and the sum of
the bucket lengths of `keys_by_room`; bucket names are distinct; each bucket
is exactly the subsequence of `all_keys` with that room id (so every key
lies in exactly one bucket, the one keyed by its own `room_id`, in
first-seen order); and every key of `all_keys` lies in the bucket of its
room. -/
theorem organize_keys_grouping (keys : List ExportedRoomKey) (fc : Nat) :
    (organize_keys keys fc).total_keys = (organize_keys keys fc).all_keys.length
    ∧ (organize_keys keys fc).total_keys = sumLens (organize_keys keys fc).keys_by_room
    ∧ ((organize_keys keys fc).keys_by_room.map Prod.fst).Nodup
    ∧ (∀ b ∈ (organize_keys keys fc).keys_by_room,
        b.2 = (organize_keys keys fc).all_keys.filter (fun d => d.room_id = b.1))
    ∧ (∀ d ∈ (organize_keys keys fc).all_keys,
        ∃ b ∈ (organize_keys keys fc).keys_by_room, b.1 = d.room_id ∧ d ∈ b.2) := by
  have hinv := organize_keys_inv keys fc
  refine ⟨rfl, ?_, hinv.nodup, ?_, ?_⟩
  · rw [hinv.sums]
    rfl
  · intro b hb
    have hbk := bucketOf_of_mem _ b hinv.nodup hb
    have h2 := hinv.buckets b.1
    rw [hbk] at h2
    simpa using h2
  · intro d hd
    have h2 := hinv.buckets d.room_id
    have hdf : d ∈ (organize_keys keys fc).all_keys.filter
        (fun x => x.room_id = d.room_id) :=
      List.mem_filter.mpr ⟨hd, by simp⟩
    cases hbk : bucketOf (organize_keys keys fc).keys_by_room d.room_id with
    | none =>
      rw [hbk] at h2
      simp only [Option.getD_none] at h2
      rw [← h2] at hdf
      cases hdf
    | some ks =>
      refine ⟨(d.room_id, ks), mem_of_bucketOf _ _ _ hbk, rfl, ?_⟩
      rw [hbk] at h2
      simp only [Option.getD_some] at h2
      rw [h2]
      exact hdf

/-- C5 witness: the grouping invariant evaluated on one concrete key. -/
theorem organize_keys_grouping_witness :
    (organize_keys [sampleKey "!roomA" "sessA"] 0).total_keys =
      (organize_keys [sampleKey "!roomA" "sessA"] 0).all_keys.length
    ∧ (organize_keys [sampleKey "!roomA" "sessA"] 0).total_keys =
      sumLens (organize_keys [sampleKey "!roomA" "sessA"] 0).keys_by_room
    ∧ ((organize_keys [sampleKey "!roomA" "sessA"] 0).keys_by_room.map Prod.fst).Nodup
    ∧ (∀ b ∈ (organize_keys [sampleKey "!roomA" "sessA"] 0).keys_by_room,
        b.2 = (organize_keys [sampleKey "!roomA" "sessA"] 0).all_keys.filter
          (fun d => d.room_id = b.1))
    ∧ (∀ d ∈ (organize_keys [sampleKey "!roomA" "sessA"] 0).all_keys,
        ∃ b ∈ (organize_keys [sampleKey "!roomA" "sessA"] 0).keys_by_room,
          b.1 = d.room_id ∧ d ∈ b.2) :=
  organize_keys_grouping [sampleKey "!roomA" "sessA"] 0

/-- C6: Wrong passphrase is fatal before the walk — for every store holding
an encrypted cipher blob under the sentinel key, a run whose effective
passphrase is not the blob's passphrase fails in the cipher loader (the
error is the cipher-import error, independent of the session collection's
contents), in both modes, and no file is written. -/
theorem wrong_passphrase_fatal (db : SledDb) (passphrase : Option String)
    (blob : CipherBlob)
    (hblob : db.store_cipher_blob = some blob)
    (hwrong : passphrase.getD "" ≠ blob.passphrase) :
    runMain db ⟨passphrase, true⟩ =
      .error "Failed to import store cipher - wrong passphrase?"
    ∧ runMain db ⟨passphrase, false⟩ =
      .error "Failed to import store cipher - wrong passphrase?" := by
  have hload : load_store_cipher db (passphrase.getD "") =
      .error "Failed to import store cipher - wrong passphrase?" := by
    simp only [load_store_cipher, hblob, StoreCipher.import, if_neg hwrong]
    rfl
  exact ⟨runMain_skip_error db passphrase _ (extract_ft_error db passphrase _ hload),
    runMain_strict_error db passphrase _ (extract_strict_error_load db passphrase _ hload)⟩

/-- C6 witness: the concrete encrypted store `dbEncrypted` (blob passphrase
`"secret"`) run with no passphrase fails with the cipher-import error in
both modes. -/
theorem wrong_passphrase_fatal_witness :
    runMain dbEncrypted ⟨none, true⟩ =
      .error "Failed to import store cipher - wrong passphrase?"
    ∧ runMain dbEncrypted ⟨none, false⟩ =
      .error "Failed to import store cipher - wrong passphrase?" :=
  wrong_passphrase_fatal dbEncrypted none { passphrase := "secret", cipherId := 7 }
    rfl (by decide)

/-- C7: Cipher absence equivalence — with no cipher context,
`deserialize_value` equals direct structured decoding on every byte
sequence: the same value on well-formed input, an error (no partial result)
on malformed input, and no decryption is ever attempted. -/
theorem cipher_absence_equivalence :
    (∀ data : Blob, deserialize_value data none = json_from_slice data)
    ∧ (∀ p, deserialize_value (Blob.plainPickle p) none = .ok p)
    ∧ (∀ raw, deserialize_value (Blob.malformed raw) none =
        .error "Failed to deserialize JSON") :=
  ⟨fun _ => rfl, fun _ => rfl, fun _ => rfl⟩

/-- C7 witness: the equivalence evaluated on one malformed and one
well-formed concrete byte sequence. -/
theorem cipher_absence_equivalence_witness :
    deserialize_value (Blob.malformed "zz") none = json_from_slice (Blob.malformed "zz")
    ∧ deserialize_value (Blob.plainPickle (samplePickle "!roomA" "sessA")) none =
      .ok (samplePickle "!roomA" "sessA") :=
  ⟨cipher_absence_equivalence.1 (Blob.malformed "zz"),
   cipher_absence_equivalence.2.1 (samplePickle "!roomA" "sessA")⟩

/-- C8: Determinism — two runs with the same configuration over stores with
the same cipher blob and the same session-collection content (as a finite
map: permuted entry lists with distinct keys) produce identical results; in
particular the `all_keys` sequences are byte-identical, because the engine
iterates a given immutable store in its fixed key order. -/
theorem extraction_deterministic (db1 db2 : SledDb) (cfg : RunConfig)
    (hcipher : db1.store_cipher_blob = db2.store_cipher_blob)
    (htree : (open_tree db1 INBOUND_GROUP_TABLE_NAME).Perm
      (open_tree db2 INBOUND_GROUP_TABLE_NAME))
    (hnd : ((open_tree db1 INBOUND_GROUP_TABLE_NAME).map Prod.fst).Nodup) :
    runMain db1 cfg = runMain db2 cfg := by
  have hiter := sledIter_eq_of_perm _ _ htree hnd
  have hload : ∀ p, load_store_cipher db1 p = load_store_cipher db2 p := by
    intro p
    unfold load_store_cipher
    rw [hcipher]
  simp only [runMain, extract_keys_fault_tolerant, extract_keys_strict]
  rw [hload, hiter]

/-- C8 witness: the concrete stores `dbTwoA` and `dbTwoB`, holding the same
two entries inserted in opposite orders, produce identical fault-tolerant
runs. -/
theorem extraction_deterministic_witness :
    runMain dbTwoA ⟨none, true⟩ = runMain dbTwoB ⟨none, true⟩ :=
  extraction_deterministic dbTwoA dbTwoB ⟨none, true⟩ rfl (by decide) (by decide)

/-- C9 (implicit): in strict mode the output, when produced at all, is a
single output document whose `failed_keys` is 0 — the strict path either
aborts or reports zero failed keys. -/
theorem strict_mode_failed_keys_zero (db : SledDb) (passphrase : Option String)
    (files : List WrittenFile)
    (hrun : runMain db ⟨passphrase, false⟩ = .ok files) :
    ∃ out, files = [WrittenFile.mainOutput out] ∧ out.failed_keys = 0 := by
  cases hex : extract_keys_strict db passphrase with
  | error e =>
    rw [runMain_strict_error db passphrase e hex] at hrun
    cases hrun
  | ok keys =>
    rw [runMain_strict_ok db passphrase keys hex] at hrun
    rw [Except.ok.injEq] at hrun
    exact ⟨organize_keys keys 0, hrun.symm, rfl⟩

/-- C9 witness: the concrete store `dbOneGood` run in strict mode writes one
output document with `failed_keys = 0`. -/
theorem strict_mode_failed_keys_zero_witness :
    ∃ out, [WrittenFile.mainOutput (organize_keys [sampleKey "!roomA" "sessA"] 0)] =
        [WrittenFile.mainOutput out] ∧ out.failed_keys = 0 :=
  strict_mode_failed_keys_zero dbOneGood none
    [WrittenFile.mainOutput (organize_keys [sampleKey "!roomA" "sessA"] 0)] rfl

/-- C10 (implicit): every bucket present in `keys_by_room` is non-empty and
contains only keys whose `room_id` is the bucket's name. -/
theorem keys_by_room_buckets (keys : List ExportedRoomKey) (fc : Nat) :
    ∀ b ∈ (organize_keys keys fc).keys_by_room,
      b.2 ≠ [] ∧ ∀ d ∈ b.2, d.room_id = b.1 := by
  intro b hb
  have hinv := organize_keys_inv keys fc
  refine ⟨hinv.nonempty b hb, ?_⟩
  intro d hd
  have hbk := bucketOf_of_mem _ b hinv.nodup hb
  have h2 := hinv.buckets b.1
  rw [hbk] at h2
  simp only [Option.getD_some] at h2
  rw [h2] at hd
  have hpd := List.of_mem_filter hd
  simpa using hpd

/-- C10 witness: in the output for one concrete key, the single bucket is
non-empty and all its keys carry the bucket's room id. -/
theorem keys_by_room_buckets_witness :
    ("!roomA", [convert_exported_key (sampleKey "!roomA" "sessA")]).2 ≠ []
    ∧ ∀ d ∈ ("!roomA", [convert_exported_key (sampleKey "!roomA" "sessA")]).2,
        d.room_id = ("!roomA", [convert_exported_key (sampleKey "!roomA" "sessA")]).1 :=
  keys_by_room_buckets [sampleKey "!roomA" "sessA"] 0
    ("!roomA", [convert_exported_key (sampleKey "!roomA" "sessA")]) (by decide)

end SledExtractor
